import Mathlib

/-!
Verification of the concurrent port-scanning tool (Go, `main.go` of the
port-scanner exercise) against its design specification.

The Go source is shallowly embedded below.  Conventions of the embedding:

* Go `string` is modelled as Lean `String` (a sequence of characters; the
  byte-level UTF-8 representation is not modelled, so `len` / slicing of a
  Go string corresponds to character count / character slicing here).
* Go `int` is modelled as `Int` (the scanned port values are tiny, so 64-bit
  overflow is irrelevant; `strconv.Atoi`'s overflow error is the one point
  where the model differs: a huge literal is rejected here by the subsequent
  `port < 1 || port > 65535` range check instead of inside `Atoi`).
* Network I/O is modelled by a `net : Int → DialOutcome` oracle giving, for
  each port, the result of the single `DialContext` call the scanner makes,
  and — when the dial succeeds — the result of the single `conn.Read` that
  `grabBanner` performs (`none` models a read error or read timeout).
* Wall-clock quantities (`Duration`, `Latency`) are not modelled; the
  `Latency` field is kept and set to `0`.
* The worker pool of `scanPorts` is modelled twice: functionally (each port
  is probed exactly once and the outcomes are sorted), and operationally as
  a small-step transition system `Step` in which at most `C` ports are in
  flight, mirroring the `jobs`/`results` channels and the `C` worker
  goroutines.
-/

/-! ## Basic string helpers (Go standard-library behaviour) -/

/-- `strings.Split s sep` for a one-character separator (the program only
splits on `","` and `"-"`).  `splitOnChar ',' []` is `[[]]`, matching Go's
`strings.Split("", ",") = [""]`. -/
def splitOnChar (sep : Char) : List Char → List (List Char)
  | [] => [[]]
  | c :: cs =>
    let r := splitOnChar sep cs
    if c = sep then [] :: r
    else
      match r with
      | [] => [[c]]
      | h :: t => (c :: h) :: t

/-- Go `strings.Split` on strings, for single-character separators. -/
def goSplit (sep : Char) (s : String) : List String :=
  (splitOnChar sep s.toList).map fun l => ⟨l⟩

/-- ASCII subset of Go `unicode.IsSpace` (the inputs the program trims are
ASCII command-line tokens and banner bytes). -/
def goIsSpace (c : Char) : Bool :=
  c = ' ' || c = '\t' || c = '\n' || c = '\x0b' || c = '\x0c' || c = '\r'

/-- Go `strings.TrimSpace`. -/
def goTrimSpace (s : String) : String :=
  ⟨((s.toList.dropWhile goIsSpace).reverse.dropWhile goIsSpace).reverse⟩

/-- Go `strings.Contains s sub`. -/
def goContains (s sub : String) : Bool :=
  s.toList.tails.any fun t => sub.toList.isPrefixOf t

/-- Go `strings.ReplaceAll s pat rep` for a one-character pattern (the
program only replaces the single characters `"\r"` and `"\n"`). -/
def replaceChar (c : Char) (rep : List Char) : List Char → List Char
  | [] => []
  | x :: xs =>
    if x = c then rep ++ replaceChar c rep xs
    else x :: replaceChar c rep xs

/-- Digits of a decimal literal, or `none` if the list is empty or contains
a non-digit. -/
def digitsToNat : List Char → Option Nat
  | [] => none
  | l =>
    if l.all Char.isDigit then
      some (l.foldl (fun acc c => acc * 10 + (c.toNat - '0'.toNat)) 0)
    else none

/-- Go `strconv.Atoi`: optional sign, then at least one digit.  (Go also
rejects literals outside the 64-bit range; see the module comment.) -/
def goAtoi (s : String) : Option Int :=
  match s.toList with
  | [] => none
  | c :: rest =>
    if c = '+' then (digitsToNat rest).map Int.ofNat
    else if c = '-' then (digitsToNat rest).map fun n => -(n : Int)
    else (digitsToNat (c :: rest)).map Int.ofNat

/-! ## Data model (`ScanResult`, `ScanSummary`) -/

/-- Go `ScanResult`.  `Latency` is kept but not modelled (wall clock). -/
structure ScanResult where
  Port : Int
  Status : String
  Service : String
  Banner : String
  Latency : Int
  Error : String
deriving DecidableEq, Repr

/-- Go `ScanSummary`.  The wall-clock `Duration` field is not modelled. -/
structure ScanSummary where
  Target : String
  TotalPorts : Nat
  OpenPorts : Nat
  ClosedPorts : Nat
  Filtered : Nat
  Results : List ScanResult
deriving DecidableEq, Repr

/-! ## Port set resolver (`parsePorts`, `getCommonPorts`,
`uniqueSortedPorts`) -/

/-- Go `getCommonPorts`, verbatim: note that `993` and `995` occur twice
and the list is not in ascending order (`135` follows `995`). -/
def getCommonPorts : List Int :=
  [21, 22, 23, 25, 53, 80, 110, 143, 443, 993, 995,
   135, 139, 445, 993, 995, 1723, 3306, 3389, 5432, 5900,
   8080, 8443, 9200, 27017]

/-- Go `uniqueSortedPorts`: insert into a `map[int]bool`, collect the keys,
`sort.Ints`.  The map's iteration order is unspecified, but the final sort
makes the output the ascending enumeration of the key set, which equals
sorting the deduplicated list. -/
def uniqueSortedPorts (ports : List Int) : List Int :=
  List.insertionSort (· ≤ ·) ports.dedup

/-- The inclusive range `start..e` produced by Go's
`for i := start; i <= end; i++ { ports = append(ports, i) }`. -/
def rangeList (start e : Int) : List Int :=
  (List.range (e + 1 - start).toNat).map fun i => start + Int.ofNat i

/-- One iteration of the token loop in Go `parsePorts`: parse a single
(already trimmed) comma-separated token into the ports it contributes. -/
def parsePortToken (part : String) : Except String (List Int) :=
  if goContains part "-" then
    match goSplit '-' part with
    | [a, b] =>
      match goAtoi a with
      | none => .error ("invalid start port: " ++ a)
      | some start =>
        match goAtoi b with
        | none => .error ("invalid end port: " ++ b)
        | some e =>
          if start < 1 ∨ e > 65535 ∨ start > e then
            .error ("invalid port range: " ++ toString start ++ "-" ++ toString e)
          else .ok (rangeList start e)
    | _ => .error ("invalid port range: " ++ part)
  else
    match goAtoi part with
    | none => .error ("invalid port: " ++ part)
    | some port =>
      if port < 1 ∨ port > 65535 then
        .error ("port out of range: " ++ toString port)
      else .ok [port]

/-- The token loop of Go `parsePorts`: accumulate each token's ports in
order, stopping at the first malformed token. -/
def parseParts : List String → Except String (List Int)
  | [] => .ok []
  | part :: rest =>
    match parsePortToken part with
    | .error e => .error e
    | .ok l =>
      match parseParts rest with
      | .error e => .error e
      | .ok ls => .ok (l ++ ls)

/-- Go `parsePorts`.  The `"common"` keyword is handled only when it is the
entire spec, and on that path `getCommonPorts` is returned as-is, without
passing through `uniqueSortedPorts`. -/
def parsePorts (portSpec : String) : Except String (List Int) :=
  if portSpec = "common" then .ok getCommonPorts
  else
    match parseParts ((goSplit ',' portSpec).map goTrimSpace) with
    | .error e => .error e
    | .ok ports => .ok (uniqueSortedPorts ports)

/-! ## Service table (`getServiceName`) -/

/-- The Go map literal in `getServiceName`, as an association list. -/
def services : List (Int × String) :=
  [(21, "ftp"), (22, "ssh"), (23, "telnet"), (25, "smtp"), (53, "dns"),
   (80, "http"), (110, "pop3"), (143, "imap"), (443, "https"),
   (993, "imaps"), (995, "pop3s"), (3306, "mysql"), (3389, "rdp"),
   (5432, "postgresql"), (5900, "vnc"), (8080, "http-alt"),
   (8443, "https-alt")]

/-- Go `getServiceName`. -/
def getServiceName (port : Int) : String :=
  match services.lookup port with
  | some service => service
  | none => "unknown"

/-! ## Connection prober and banner extractor (`scanPort`, `grabBanner`) -/

/-- Result of the single `DialContext` call for a port.  `ok readResult`
models a completed TCP connection, carrying the result of the single
`conn.Read` that `grabBanner` will perform on it (`none` = read error or
read timeout).  `fail isNetError timeout msg` models a dial error:
whether it is a `net.Error`, whether `Timeout()` is true, and its
`Error()` message. -/
inductive DialOutcome where
  | ok (readResult : Option String)
  | fail (isNetError : Bool) (timeout : Bool) (msg : String)
deriving DecidableEq, Repr

/-- Go `grabBanner`, given the bytes returned by `conn.Read` (`none` on a
read error or timeout).  The probe writes (`HELP\r\n` etc.) are outbound
I/O and do not affect the transformation. -/
def grabBanner (port : Int) (readResult : Option String) : String :=
  match readResult with
  | none => ""
  | some data =>
    let banner := goTrimSpace data
    let banner : String := ⟨replaceChar '\r' ['\\', 'r'] banner.toList⟩
    let banner : String := ⟨replaceChar '\n' ['\\', 'n'] banner.toList⟩
    if banner.toList.length > 100 then ⟨banner.toList.take 100⟩ ++ "..." else banner

/-- Go `PortScanner.scanPort`.  On a dial error the default status
`"filtered"` is refined to `"closed"` only for a non-timeout `net.Error`
whose message contains `"connection refused"`.  On success the status is
`"open"` and a banner grab is attempted; `result.Banner` keeps its zero
value `""` when the grab returns `""`. -/
def scanPort (net : Int → DialOutcome) (port : Int) : ScanResult :=
  match net port with
  | .fail isNetError timeout msg =>
    { Port := port
      Status :=
        if isNetError then
          if timeout then "filtered"
          else if goContains msg "connection refused" then "closed"
          else "filtered"
        else "filtered"
      Service := ""
      Banner := ""
      Latency := 0
      Error := msg }
  | .ok readResult =>
    { Port := port
      Status := "open"
      Service := getServiceName port
      Banner := grabBanner port readResult
      Latency := 0
      Error := "" }

/-! ## Aggregation (`Scan`'s statistics loop) and the functional scan -/

/-- The `sort.Slice(scanResults, ...Port < ...Port)` call at the end of
`scanPorts`: ascending by port.  (Go's sort is unstable; on the
duplicate-free port sets the program produces, the ascending-by-port
result is unique, and equals this insertion sort.) -/
def sortResults (results : List ScanResult) : List ScanResult :=
  List.insertionSort (fun a b => a.Port ≤ b.Port) results

/-- One iteration of the statistics loop in Go `Scan`: `TotalPorts++` and
the `switch` on `result.Status`. -/
def tallyResult (s : ScanSummary) (r : ScanResult) : ScanSummary :=
  let s := { s with TotalPorts := s.TotalPorts + 1 }
  if r.Status = "open" then { s with OpenPorts := s.OpenPorts + 1 }
  else if r.Status = "closed" then { s with ClosedPorts := s.ClosedPorts + 1 }
  else if r.Status = "filtered" then { s with Filtered := s.Filtered + 1 }
  else s

/-- The summary construction of Go `Scan` (lines 147–164): start from the
zero counts with `Results` already attached, then run the statistics loop. -/
def tallyAll (target : String) (results : List ScanResult) : ScanSummary :=
  results.foldl tallyResult
    { Target := target, TotalPorts := 0, OpenPorts := 0, ClosedPorts := 0,
      Filtered := 0, Results := results }

/-- Functional model of `PortScanner.Scan` (after target resolution): each
port in `ps.Ports` is probed exactly once by the worker pool, the outcomes
are sorted by port, and the statistics loop runs over them.  The theorem
`scanPorts_pool_reachable` below justifies the "probed exactly once"
reading against the operational worker-pool model. -/
def Scan (target : String) (ports : List Int) (net : Int → DialOutcome) : ScanSummary :=
  tallyAll target (sortResults (ports.map (scanPort net)))

/-- The parse-then-scan pipeline of `main`: on a parse error the program
exits before constructing the scanner, so no dial is attempted.  The second
component is the list of ports dialled. -/
def runScan (portSpec target : String) (net : Int → DialOutcome) :
    Except String ScanSummary × List Int :=
  match parsePorts portSpec with
  | .error e => (.error ("Invalid port specification: " ++ e), [])
  | .ok ports => (.ok (Scan target ports net), ports)

/-- A network in which every dial fails with a timeout (`net.Error` with
`Timeout() = true`), used to exercise "total per-port failure". -/
def netAllFail : Int → DialOutcome :=
  fun _ => .fail true true "dial tcp: i/o timeout"

/-! ## Helper lemmas -/

theorem scanPort_Port (net : Int → DialOutcome) (p : Int) : (scanPort net p).Port = p := by
  cases h : net p <;> simp [scanPort, h]

theorem scanPort_status_cases (net : Int → DialOutcome) (p : Int) :
    (scanPort net p).Status = "open" ∨ (scanPort net p).Status = "closed" ∨
      (scanPort net p).Status = "filtered" := by
  cases h : net p with
  | ok r => simp [scanPort, h]
  | fail ne tmo msg =>
    simp only [scanPort, h]
    by_cases h₁ : ne <;> by_cases h₂ : tmo <;>
      by_cases h₃ : goContains msg "connection refused" = true <;>
      simp [h₁, h₂, h₃]

theorem tallyResult_TotalPorts (s : ScanSummary) (r : ScanResult) :
    (tallyResult s r).TotalPorts = s.TotalPorts + 1 := by
  unfold tallyResult
  split <;> try rfl
  split <;> try rfl
  split <;> rfl

theorem tallyResult_Results (s : ScanSummary) (r : ScanResult) :
    (tallyResult s r).Results = s.Results := by
  unfold tallyResult
  split <;> try rfl
  split <;> try rfl
  split <;> rfl

theorem tallyResult_Target (s : ScanSummary) (r : ScanResult) :
    (tallyResult s r).Target = s.Target := by
  unfold tallyResult
  split <;> try rfl
  split <;> try rfl
  split <;> rfl

theorem foldl_tally_TotalPorts (l : List ScanResult) (s : ScanSummary) :
    (l.foldl tallyResult s).TotalPorts = s.TotalPorts + l.length := by
  induction l generalizing s with
  | nil => rfl
  | cons r t ih =>
    simp only [List.foldl_cons, ih, tallyResult_TotalPorts, List.length_cons]
    omega

theorem foldl_tally_Results (l : List ScanResult) (s : ScanSummary) :
    (l.foldl tallyResult s).Results = s.Results := by
  induction l generalizing s with
  | nil => rfl
  | cons r t ih => simp only [List.foldl_cons, ih, tallyResult_Results]

theorem tallyResult_sum (s : ScanSummary) (r : ScanResult)
    (h : r.Status = "open" ∨ r.Status = "closed" ∨ r.Status = "filtered") :
    (tallyResult s r).OpenPorts + (tallyResult s r).ClosedPorts + (tallyResult s r).Filtered
      = s.OpenPorts + s.ClosedPorts + s.Filtered + 1 := by
  unfold tallyResult
  rcases h with h | h | h <;> simp [h] <;> omega

theorem foldl_tally_sum (l : List ScanResult) (s : ScanSummary)
    (h : ∀ r ∈ l, r.Status = "open" ∨ r.Status = "closed" ∨ r.Status = "filtered") :
    (l.foldl tallyResult s).OpenPorts + (l.foldl tallyResult s).ClosedPorts
        + (l.foldl tallyResult s).Filtered
      = s.OpenPorts + s.ClosedPorts + s.Filtered + l.length := by
  induction l generalizing s with
  | nil => rfl
  | cons r t ih =>
    have hr := h r (List.mem_cons_self r t)
    have ht : ∀ x ∈ t, x.Status = "open" ∨ x.Status = "closed" ∨ x.Status = "filtered" :=
      fun x hx => h x (List.mem_cons_of_mem r hx)
    simp only [List.foldl_cons, ih _ ht, tallyResult_sum s r hr, List.length_cons]
    omega

instance : IsTotal ScanResult (fun a b => a.Port ≤ b.Port) :=
  ⟨fun a b => Int.le_total a.Port b.Port⟩

instance : IsTrans ScanResult (fun a b => a.Port ≤ b.Port) :=
  ⟨fun _ _ _ h₁ h₂ => le_trans h₁ h₂⟩

instance : IsAntisymm ScanResult (fun a b => a.Port < b.Port) :=
  ⟨fun _ _ h₁ h₂ => (lt_asymm h₁ h₂).elim⟩

theorem sortResults_perm (l : List ScanResult) : (sortResults l).Perm l :=
  List.perm_insertionSort _ l

theorem sortResults_sorted (l : List ScanResult) :
    List.Sorted (fun a b => a.Port ≤ b.Port) (sortResults l) :=
  List.sorted_insertionSort _ l

/-- With pairwise-distinct ports, the ascending-by-port reordering of a
list is unique: two permuted inputs sort to the same list. -/
theorem sortResults_eq_of_perm {l₁ l₂ : List ScanResult} (h : l₁.Perm l₂)
    (hnd : (l₁.map ScanResult.Port).Nodup) : sortResults l₁ = sortResults l₂ := by
  have hp : (sortResults l₁).Perm (sortResults l₂) :=
    (sortResults_perm l₁).trans (h.trans (sortResults_perm l₂).symm)
  have strict : ∀ m : List ScanResult, (m.map ScanResult.Port).Nodup →
      List.Sorted (fun a b => a.Port ≤ b.Port) m →
      List.Sorted (fun a b => a.Port < b.Port) m := by
    intro m hm hs
    have hne : m.Pairwise fun a b => a.Port ≠ b.Port := List.pairwise_map.mp hm
    exact (hs.and hne).imp fun h => lt_of_le_of_ne h.1 h.2
  have hnd₁ : ((sortResults l₁).map ScanResult.Port).Nodup :=
    (((sortResults_perm l₁).map ScanResult.Port).nodup_iff).mpr hnd
  have hnd₂ : ((sortResults l₂).map ScanResult.Port).Nodup := by
    refine (((sortResults_perm l₂).map ScanResult.Port).nodup_iff).mpr ?_
    exact ((h.map ScanResult.Port).nodup_iff).mp hnd
  exact List.eq_of_perm_of_sorted hp
    (strict _ hnd₁ (sortResults_sorted l₁)) (strict _ hnd₂ (sortResults_sorted l₂))

theorem rangeList_bounds {start e p : Int} (h1 : 1 ≤ start) (h2 : e ≤ 65535)
    (hp : p ∈ rangeList start e) : 1 ≤ p ∧ p ≤ 65535 := by
  simp only [rangeList, List.mem_map, List.mem_range] at hp
  obtain ⟨i, hi, rfl⟩ := hp
  simp only [Int.ofNat_eq_natCast] at hi ⊢
  omega

theorem parsePortToken_bounds {part : String} {l : List Int}
    (h : parsePortToken part = .ok l) : ∀ p ∈ l, 1 ≤ p ∧ p ≤ 65535 := by
  intro p hp
  unfold parsePortToken at h
  split at h
  · split at h
    · split at h
      · exact absurd h (by simp)
      · split at h
        · exact absurd h (by simp)
        · split at h
          · exact absurd h (by simp)
          · rename_i hguard
            injection h with h'
            subst h'
            push_neg at hguard
            exact rangeList_bounds (by omega) (by omega) hp
    · exact absurd h (by simp)
  · split at h
    · exact absurd h (by simp)
    · split at h
      · exact absurd h (by simp)
      · rename_i hguard
        injection h with h'
        subst h'
        rcases List.mem_singleton.mp hp with rfl
        push_neg at hguard
        omega

theorem parseParts_bounds : ∀ {parts : List String} {l : List Int},
    parseParts parts = .ok l → ∀ p ∈ l, 1 ≤ p ∧ p ≤ 65535 := by
  intro parts
  induction parts with
  | nil =>
    intro l h p hp
    unfold parseParts at h
    injection h with h'
    subst h'
    simp at hp
  | cons part rest ih =>
    intro l h p hp
    unfold parseParts at h
    cases hx : parsePortToken part with
    | error e => rw [hx] at h; cases h
    | ok lx =>
      rw [hx] at h
      cases hr : parseParts rest with
      | error e => rw [hr] at h; cases h
      | ok ls =>
        rw [hr] at h
        injection h with h'
        subst h'
        rcases List.mem_append.mp hp with hm | hm
        · exact parsePortToken_bounds hx p hm
        · exact ih hr p hm

theorem parseParts_perm {p₁ p₂ : List String} (hp : p₁.Perm p₂) :
    ∀ {l₁ : List Int}, parseParts p₁ = .ok l₁ →
      ∃ l₂, parseParts p₂ = .ok l₂ ∧ l₁.Perm l₂ := by
  induction hp with
  | nil =>
    intro l₁ h
    exact ⟨l₁, h, List.Perm.refl _⟩
  | @cons x t₁ t₂ hrest ih =>
    intro l₁ h
    cases hx : parsePortToken x with
    | error e => simp [parseParts, hx] at h
    | ok lx =>
      simp only [parseParts, hx] at h ⊢
      cases hr : parseParts t₁ with
      | error e => simp [hr] at h
      | ok ls =>
        simp only [hr] at h
        injection h with h'
        subst h'
        obtain ⟨l₂, h₂, hperm⟩ := ih hr
        simp only [h₂]
        exact ⟨lx ++ l₂, rfl, hperm.append_left lx⟩
  | swap x y l =>
    intro l₁ h
    cases hy : parsePortToken y with
    | error e => simp [parseParts, hy] at h
    | ok ly =>
      cases hx : parsePortToken x with
      | error e => simp [parseParts, hy, hx] at h
      | ok lx =>
        cases hl : parseParts l with
        | error e => simp [parseParts, hy, hx, hl] at h
        | ok ll =>
          simp only [parseParts, hy, hx, hl] at h ⊢
          injection h with h'
          subst h'
          refine ⟨lx ++ (ly ++ ll), rfl, ?_⟩
          have hc : (ly ++ lx).Perm (lx ++ ly) := List.perm_append_comm
          have h1 := List.Perm.append_right ll hc
          simpa [List.append_assoc] using h1
  | trans h₁ h₂ ih₁ ih₂ =>
    intro l₁ h
    obtain ⟨lm, hm, pm⟩ := ih₁ h
    obtain ⟨l₂, h₂', p₂'⟩ := ih₂ hm
    exact ⟨l₂, h₂', pm.trans p₂'⟩

theorem parseParts_error_of_mem : ∀ {parts : List String} {part : String} {e : String},
    part ∈ parts → parsePortToken part = .error e →
      ∃ e', parseParts parts = .error e' := by
  intro parts
  induction parts with
  | nil => intro _ _ h _; simp at h
  | cons hd tl ih =>
    intro part e hmem herr
    unfold parseParts
    cases hhd : parsePortToken hd with
    | error e' => exact ⟨e', rfl⟩
    | ok lhd =>
      rcases List.mem_cons.mp hmem with rfl | hmem'
      · rw [hhd] at herr; cases herr
      · obtain ⟨e', he'⟩ := ih hmem' herr
        rw [he']
        exact ⟨e', rfl⟩

theorem uniqueSortedPorts_sorted (l : List Int) :
    List.Sorted (· ≤ ·) (uniqueSortedPorts l) :=
  List.sorted_insertionSort _ _

theorem uniqueSortedPorts_nodup (l : List Int) : (uniqueSortedPorts l).Nodup :=
  ((List.perm_insertionSort _ _).nodup_iff).mpr (List.nodup_dedup l)

theorem uniqueSortedPorts_mem (l : List Int) (p : Int) :
    p ∈ uniqueSortedPorts l ↔ p ∈ l := by
  unfold uniqueSortedPorts
  rw [(List.perm_insertionSort _ _).mem_iff, List.mem_dedup]

theorem uniqueSortedPorts_pairwise_lt (l : List Int) :
    List.Pairwise (· < ·) (uniqueSortedPorts l) :=
  ((uniqueSortedPorts_sorted l).and (uniqueSortedPorts_nodup l)).imp
    fun h => lt_of_le_of_ne h.1 h.2

theorem uniqueSortedPorts_eq_of_perm {l₁ l₂ : List Int} (h : l₁.Perm l₂) :
    uniqueSortedPorts l₁ = uniqueSortedPorts l₂ :=
  List.eq_of_perm_of_sorted
    ((List.perm_insertionSort _ _).trans
      (h.dedup.trans (List.perm_insertionSort _ _).symm))
    (uniqueSortedPorts_sorted l₁) (uniqueSortedPorts_sorted l₂)

/-! ## Operational model of the worker pool (`scanPorts`, `worker`)

`scanPorts` starts `C` worker goroutines that pull ports from the buffered
`jobs` channel and push one `ScanResult` per port onto the `results`
channel; the channel is closed after a `WaitGroup` barrier over all
workers.  The state below abstracts this: `pending` is the content of the
`jobs` channel, `busy` the multiset of ports currently held by workers
(at most `C`, one per worker goroutine), and `collected` the results
pushed so far.  A `take` step is a worker receiving a job; a `finish`
step is a worker completing `scanPort` and sending its result. -/

structure PoolState where
  pending : List Int
  busy : List Int
  collected : List ScanResult
deriving DecidableEq, Repr

def initState (ports : List Int) : PoolState :=
  { pending := ports, busy := [], collected := [] }

inductive Step (C : Nat) (net : Int → DialOutcome) : PoolState → PoolState → Prop where
  | take (p : Int) (rest : List Int) (s : PoolState)
      (hC : s.busy.length < C) (hp : s.pending = p :: rest) :
      Step C net s { pending := rest, busy := p :: s.busy, collected := s.collected }
  | finish (p : Int) (pre post : List Int) (s : PoolState)
      (hb : s.busy = pre ++ p :: post) :
      Step C net s
        { pending := s.pending, busy := pre ++ post,
          collected := scanPort net p :: s.collected }

/-- Executions of the pool: reflexive-transitive closure of `Step`. -/
def Reaches (C : Nat) (net : Int → DialOutcome) : PoolState → PoolState → Prop :=
  Relation.ReflTransGen (Step C net)

/-- The pool is done: the `jobs` channel is drained and every worker has
passed the `WaitGroup` barrier. -/
def IsFinal (s : PoolState) : Prop := s.pending = [] ∧ s.busy = []

/-- The inductive invariant of the pool: no port is duplicated or lost
(the collected ports, the in-flight ports and the queued ports are
together a permutation of the requested ports), at most `C` probes are in
flight, and every collected outcome is the prober's answer for its port. -/
def PoolInv (C : Nat) (net : Int → DialOutcome) (ports : List Int) (s : PoolState) : Prop :=
  (s.collected.map ScanResult.Port ++ (s.busy ++ s.pending)).Perm ports ∧
  s.busy.length ≤ C ∧
  ∀ r ∈ s.collected, r = scanPort net r.Port

theorem poolInv_init (C : Nat) (net : Int → DialOutcome) (ports : List Int) :
    PoolInv C net ports (initState ports) := by
  refine ⟨?_, ?_, ?_⟩
  · simp [initState]
  · simp [initState]
  · simp [initState]

theorem poolInv_step {C : Nat} {net : Int → DialOutcome} {ports : List Int}
    {s s' : PoolState} (hinv : PoolInv C net ports s) (hstep : Step C net s s') :
    PoolInv C net ports s' := by
  obtain ⟨hperm, hlen, hcol⟩ := hinv
  cases hstep with
  | take p rest _ hC hp =>
    refine ⟨?_, ?_, hcol⟩
    · refine List.Perm.trans (List.Perm.append_left _ ?_) hperm
      rw [hp]
      exact List.perm_middle.symm
    · simpa using hC
  | finish p pre post _ hb =>
    refine ⟨?_, ?_, ?_⟩
    · have e1 : (scanPort net p :: s.collected).map ScanResult.Port
          ++ ((pre ++ post) ++ s.pending)
          = p :: (s.collected.map ScanResult.Port ++ ((pre ++ post) ++ s.pending)) := by
        simp [scanPort_Port]
      rw [e1]
      have k1 : (p :: (s.collected.map ScanResult.Port ++ ((pre ++ post) ++ s.pending))).Perm
          (s.collected.map ScanResult.Port ++ (p :: ((pre ++ post) ++ s.pending))) :=
        List.perm_middle.symm
      have k2 : (p :: ((pre ++ post) ++ s.pending)).Perm ((pre ++ p :: post) ++ s.pending) :=
        (List.Perm.append_right s.pending List.perm_middle).symm
      have k3 : (s.collected.map ScanResult.Port ++ ((pre ++ p :: post) ++ s.pending)).Perm
          ports := by
        rw [← hb]
        exact hperm
      exact k1.trans ((List.Perm.append_left _ k2).trans k3)
    · rw [hb] at hlen
      simp only [List.length_append, List.length_cons] at hlen ⊢
      omega
    · intro r hr
      rcases List.mem_cons.mp hr with rfl | hr'
      · rw [scanPort_Port]
      · exact hcol r hr'

theorem poolInv_reaches {C : Nat} {net : Int → DialOutcome} {ports : List Int}
    {s : PoolState} (h : Reaches C net (initState ports) s) :
    PoolInv C net ports s := by
  induction h with
  | refl => exact poolInv_init C net ports
  | tail _ hstep ih => exact poolInv_step ih hstep

theorem collected_eq_map {net : Int → DialOutcome} :
    ∀ (l : List ScanResult), (∀ r ∈ l, r = scanPort net r.Port) →
      l = (l.map ScanResult.Port).map (scanPort net) := by
  intro l
  induction l with
  | nil => intro _; rfl
  | cons r t ih =>
    intro h
    have hr := h r (List.mem_cons_self r t)
    have ht := ih fun x hx => h x (List.mem_cons_of_mem r hx)
    simp only [List.map_cons]
    exact congrArg₂ List.cons hr ht

/-- In a final pool state, the collected outcomes are exactly one
`scanPort` outcome per requested port. -/
theorem pool_final_perm {C : Nat} {net : Int → DialOutcome} {ports : List Int}
    {s : PoolState} (h : Reaches C net (initState ports) s) (hf : IsFinal s) :
    s.collected.Perm (ports.map (scanPort net)) := by
  obtain ⟨hperm, _, hcol⟩ := poolInv_reaches h
  obtain ⟨hpend, hbusy⟩ := hf
  rw [hpend, hbusy] at hperm
  simp only [List.append_nil] at hperm
  refine List.Perm.trans ?_ (hperm.map (scanPort net))
  conv_lhs => rw [collected_eq_map s.collected hcol]

/-! ## Service-table helpers -/

theorem lookup_eq_some_of_mem {l : List (Int × String)}
    (hnd : (l.map Prod.fst).Nodup) {p : Int} {v : String} (h : (p, v) ∈ l) :
    l.lookup p = some v := by
  induction l with
  | nil => simp at h
  | cons hd tl ih =>
    obtain ⟨k, w⟩ := hd
    simp only [List.map_cons, List.nodup_cons] at hnd
    rcases List.mem_cons.mp h with heq | h'
    · cases heq
      simp [List.lookup]
    · have hne : p ≠ k := by
        intro hpk
        subst hpk
        exact hnd.1 (List.mem_map.mpr ⟨(p, v), h', rfl⟩)
      have hpk : (p == k) = false := beq_eq_false_iff_ne.mpr hne
      simp only [List.lookup, hpk]
      exact ih hnd.2 h'

theorem lookup_eq_none_of_not_mem {l : List (Int × String)} {p : Int}
    (h : p ∉ l.map Prod.fst) : l.lookup p = none := by
  induction l with
  | nil => rfl
  | cons hd tl ih =>
    obtain ⟨k, w⟩ := hd
    simp only [List.map_cons, List.mem_cons, not_or] at h
    have hpk : (p == k) = false := beq_eq_false_iff_ne.mpr h.1
    simp only [List.lookup, hpk]
    exact ih h.2

theorem mem_of_lookup_eq_some {l : List (Int × String)} {p : Int} {v : String}
    (h : l.lookup p = some v) : (p, v) ∈ l := by
  induction l with
  | nil => cases h
  | cons hd tl ih =>
    obtain ⟨k, w⟩ := hd
    cases hpk : p == k with
    | true =>
      simp only [List.lookup, hpk] at h
      injection h with h'
      subst h'
      have : p = k := by simpa using hpk
      subst this
      exact List.mem_cons_self _ _
    | false =>
      simp only [List.lookup, hpk] at h
      exact List.mem_cons_of_mem _ (ih h)

/-! ## Claim theorems -/

/-- Claim C3: for every probe attempt, a completed TCP connection is
classified `"open"`; a `net.Error` timeout is classified `"filtered"`; a
non-timeout `net.Error` whose message contains `"connection refused"`
(the explicit remote refusal) is classified `"closed"`; any other failure
is classified `"filtered"`; the status is `"closed"` only for an explicit
refusal; and the prober always returns one of the three classifications. -/
theorem scanPort_classification_policy (net : Int → DialOutcome) (port : Int) :
    ((∃ r, net port = .ok r) → (scanPort net port).Status = "open") ∧
    (∀ isNetError timeout msg, net port = .fail isNetError timeout msg →
      (isNetError = true → timeout = true → (scanPort net port).Status = "filtered") ∧
      (isNetError = true → timeout = false → goContains msg "connection refused" = true →
        (scanPort net port).Status = "closed") ∧
      (¬(isNetError = true ∧ timeout = false ∧ goContains msg "connection refused" = true) →
        (scanPort net port).Status = "filtered")) ∧
    ((scanPort net port).Status = "closed" →
      ∃ msg, net port = .fail true false msg ∧ goContains msg "connection refused" = true) ∧
    ((scanPort net port).Status = "open" ∨ (scanPort net port).Status = "closed" ∨
      (scanPort net port).Status = "filtered") := by
  refine ⟨?_, ?_, ?_, scanPort_status_cases net port⟩
  · rintro ⟨r, hr⟩
    simp [scanPort, hr]
  · intro ne tmo msg h
    refine ⟨?_, ?_, ?_⟩
    · rintro rfl rfl
      simp [scanPort, h]
    · rintro rfl rfl hc
      simp [scanPort, h, hc]
    · intro hnot
      cases ne with
      | false => simp [scanPort, h]
      | true =>
        cases tmo with
        | true => simp [scanPort, h]
        | false =>
          have hc : goContains msg "connection refused" = false := by
            cases hc0 : goContains msg "connection refused"
            · rfl
            · exact absurd ⟨rfl, rfl, hc0⟩ hnot
          simp [scanPort, h, hc]
  · intro hclosed
    cases h : net port with
    | ok r => simp [scanPort, h] at hclosed
    | fail ne tmo msg =>
      cases ne with
      | false => simp [scanPort, h] at hclosed
      | true =>
        cases tmo with
        | true => simp [scanPort, h] at hclosed
        | false =>
          cases hc : goContains msg "connection refused" with
          | false => simp [scanPort, h, hc] at hclosed
          | true => exact ⟨msg, rfl, hc⟩

theorem c3_witness :
    (scanPort (fun _ => .fail true false "connect: connection refused") 22).Status
      = "closed" := by
  have h := (scanPort_classification_policy
    (fun _ => .fail true false "connect: connection refused") 22).2.1
    true false "connect: connection refused" rfl
  exact h.2.1 rfl rfl (by decide)

/-- Claim C7: the `Banner` field of a probe outcome is non-empty only when
the status is `"open"` and the banner read returned bytes; and whenever
the dial succeeds the status is `"open"` regardless of the banner read's
outcome (banner failure never changes the classification). -/
theorem banner_presence (net : Int → DialOutcome) (port : Int) :
    ((scanPort net port).Banner ≠ "" →
      (scanPort net port).Status = "open" ∧ ∃ s, net port = .ok (some s)) ∧
    (∀ readResult, net port = .ok readResult → (scanPort net port).Status = "open") := by
  constructor
  · intro hb
    cases h : net port with
    | fail ne tmo msg => simp [scanPort, h] at hb
    | ok r =>
      refine ⟨by simp [scanPort, h], ?_⟩
      cases r with
      | none => simp [scanPort, h, grabBanner] at hb
      | some s => exact ⟨s, rfl⟩
  · intro r h
    simp [scanPort, h]

theorem c7_witness :
    (scanPort (fun _ => DialOutcome.ok (some "SSH-2.0-OpenSSH")) 22).Status = "open" ∧
    ∃ s, (fun _ => DialOutcome.ok (some "SSH-2.0-OpenSSH")) 22
      = DialOutcome.ok (some s) :=
  (banner_presence (fun _ => DialOutcome.ok (some "SSH-2.0-OpenSSH")) 22).1 (by decide)

/-- Claim-side description of the banner transformation: trim surrounding
whitespace, replace each carriage return with the two characters `\r` and
each line feed with the two characters `\n`, then truncate to the first
100 characters followed by `"..."` when longer than 100. -/
def bannerSpec (s : String) : String :=
  let t : String := ⟨replaceChar '\n' ['\\', 'n']
    (replaceChar '\r' ['\\', 'r'] (goTrimSpace s).toList)⟩
  if t.toList.length > 100 then ⟨t.toList.take 100⟩ ++ "..." else t

/-- Claim C6: for every read of banner bytes, the reported banner is the
input trimmed, CR/LF-escaped, and truncated at 100 characters with a
`"..."` marker; and every read error or timeout yields the empty banner,
never an error. -/
theorem grabBanner_spec (port : Int) :
    grabBanner port none = "" ∧ ∀ s, grabBanner port (some s) = bannerSpec s :=
  ⟨rfl, fun _ => rfl⟩

/-- Claim C10: the service table has 17 entries; `getServiceName` never
returns the empty string — it returns the table's name for a mapped port
and `"unknown"` otherwise — and every successful probe carries
`getServiceName` of its port in the `Service` field. -/
theorem getServiceName_total :
    services.length = 17 ∧
    (∀ port, getServiceName port ≠ "") ∧
    (∀ port v, (port, v) ∈ services → getServiceName port = v) ∧
    (∀ port, port ∉ services.map Prod.fst → getServiceName port = "unknown") ∧
    (∀ net port readResult, net port = DialOutcome.ok readResult →
      (scanPort net port).Service = getServiceName port) := by
  refine ⟨rfl, ?_, ?_, ?_, ?_⟩
  · intro port
    unfold getServiceName
    cases hl : services.lookup port with
    | none => decide
    | some v =>
      have hmem := mem_of_lookup_eq_some hl
      have hvals : ∀ pr ∈ services, pr.2 ≠ "" := by decide
      exact hvals _ hmem
  · intro port v hmem
    unfold getServiceName
    rw [lookup_eq_some_of_mem (by decide) hmem]
  · intro port hnot
    unfold getServiceName
    rw [lookup_eq_none_of_not_mem hnot]
  · intro net port readResult h
    simp [scanPort, h]

theorem c10_witness : getServiceName 22 = "ssh" ∧ getServiceName 1234 = "unknown" :=
  ⟨getServiceName_total.2.2.1 22 "ssh" (by decide),
   getServiceName_total.2.2.2.1 1234 (by decide)⟩

/-- Claim C9: along every execution of the worker pool, at most `C` probes
are in flight; the collected, in-flight and still-queued ports are
together a permutation of the requested ports (no port is processed more
than once or skipped); every collected outcome is the prober's answer for
its port; and when the pool is done (queue drained, all workers idle) the
collected outcomes are exactly one `scanPort` outcome per requested
port. -/
theorem workerPool_correct (C : Nat) (net : Int → DialOutcome) (ports : List Int)
    (s : PoolState) (h : Reaches C net (initState ports) s) :
    s.busy.length ≤ C ∧
    (s.collected.map ScanResult.Port ++ (s.busy ++ s.pending)).Perm ports ∧
    (∀ r ∈ s.collected, r = scanPort net r.Port) ∧
    (IsFinal s → s.collected.Perm (ports.map (scanPort net))) := by
  have hinv := poolInv_reaches h
  exact ⟨hinv.2.1, hinv.1, hinv.2.2, fun hf => pool_final_perm h hf⟩

theorem c9_witness :
    ([scanPort netAllFail 80] : List ScanResult).Perm ([80].map (scanPort netAllFail)) := by
  have hreach : Reaches 1 netAllFail (initState [80])
      { pending := [], busy := [], collected := [scanPort netAllFail 80] } :=
    Relation.ReflTransGen.tail
      (Relation.ReflTransGen.tail Relation.ReflTransGen.refl
        (Step.take 80 [] (initState [80]) (by decide) rfl))
      (Step.finish 80 [] [] { pending := [], busy := [80], collected := [] } rfl)
  exact (workerPool_correct 1 netAllFail [80] _ hreach).2.2.2 ⟨rfl, rfl⟩

/-- Claim C8: aggregating any permutation of a set of outcomes with
pairwise-distinct ports yields the identical results sequence (sorted
ascending by port) and the identical summary, in particular identical
status counts. -/
theorem aggregator_order_independent (target : String) (l₁ l₂ : List ScanResult)
    (hperm : l₁.Perm l₂) (hnd : (l₁.map ScanResult.Port).Nodup) :
    sortResults l₁ = sortResults l₂ ∧
    tallyAll target (sortResults l₁) = tallyAll target (sortResults l₂) := by
  have he := sortResults_eq_of_perm hperm hnd
  exact ⟨he, by rw [he]⟩

theorem c8_witness :
    sortResults [scanPort netAllFail 443, scanPort netAllFail 80]
      = sortResults [scanPort netAllFail 80, scanPort netAllFail 443] :=
  (aggregator_order_independent "t"
    [scanPort netAllFail 443, scanPort netAllFail 80]
    [scanPort netAllFail 80, scanPort netAllFail 443]
    (by decide) (by decide)).1

theorem tallyAll_Results (target : String) (results : List ScanResult) :
    (tallyAll target results).Results = results :=
  foldl_tally_Results results _

/-- Claim C1: every scan summary satisfies
`TotalPorts = Results.length = OpenPorts + ClosedPorts + Filtered`, and
each requested port contributes exactly one result (exactly once when the
requested ports are duplicate-free, which the resolver guarantees on
every path except the `"common"` keyword).  The final conjunct exhibits
the failing input of the `"common"` bug: `parsePorts "common"` feeds the
scan a port list containing `993` twice, so the scan reports two results
for port `993` — the claim's "every requested port appears exactly once"
fails there. -/
theorem scan_summary_counts (target : String) (ports : List Int) (net : Int → DialOutcome) :
    (Scan target ports net).TotalPorts = (Scan target ports net).Results.length ∧
    (Scan target ports net).TotalPorts =
      (Scan target ports net).OpenPorts + (Scan target ports net).ClosedPorts
        + (Scan target ports net).Filtered ∧
    (∀ p, ((Scan target ports net).Results.map ScanResult.Port).count p = ports.count p) ∧
    (ports.Nodup → ∀ p ∈ ports,
      ((Scan target ports net).Results.map ScanResult.Port).count p = 1) ∧
    (parsePorts "common" = .ok getCommonPorts ∧
      ((Scan target getCommonPorts net).Results.map ScanResult.Port).count 993 = 2) := by
  have hres : ∀ (ps : List Int),
      (Scan target ps net).Results = sortResults (ps.map (scanPort net)) :=
    fun ps => tallyAll_Results target _
  have hmapport : ∀ (ps : List Int),
      ((Scan target ps net).Results.map ScanResult.Port).Perm ps := by
    intro ps
    rw [hres]
    refine List.Perm.trans ((sortResults_perm _).map ScanResult.Port) ?_
    have : (ps.map (scanPort net)).map ScanResult.Port = ps := by
      rw [List.map_map]
      simp [Function.comp_def, scanPort_Port]
    rw [this]
  have hcount : ∀ (ps : List Int) (p : Int),
      ((Scan target ps net).Results.map ScanResult.Port).count p = ps.count p :=
    fun ps p => (hmapport ps).count_eq p
  refine ⟨?_, ?_, hcount ports, ?_, ?_, ?_⟩
  · unfold Scan tallyAll
    rw [foldl_tally_TotalPorts, foldl_tally_Results]
    simp
  · have hstat : ∀ r ∈ sortResults (ports.map (scanPort net)),
        r.Status = "open" ∨ r.Status = "closed" ∨ r.Status = "filtered" := by
      intro r hr
      have hr' : r ∈ ports.map (scanPort net) := ((sortResults_perm _).mem_iff).mp hr
      obtain ⟨p, _, rfl⟩ := List.mem_map.mp hr'
      exact scanPort_status_cases net p
    unfold Scan tallyAll
    rw [foldl_tally_TotalPorts, foldl_tally_sum _ _ hstat]
    simp
  · intro hnd p hp
    rw [hcount ports p]
    exact List.count_eq_one_of_mem hnd hp
  · rfl
  · rw [hcount getCommonPorts 993]
    decide

theorem c1_witness :
    ((Scan "h" [80, 443] netAllFail).Results.map ScanResult.Port).count 80 = 1 :=
  (scan_summary_counts "h" [80, 443] netAllFail).2.2.2.1 (by decide) 80 (by decide)

/-- Claim C2: the claim's universal statement fails on the valid PortSpec
`"common"`: `parsePorts` returns the hard-coded list verbatim, which
contains `993` and `995` twice and is not in ascending order.  On every
other successful path the claimed properties do hold: the output is
strictly ascending (hence deduplicated), bounded to `[1, 65535]`, and
independent of the order of the comma-separated tokens. -/
theorem parsePorts_resolver (spec : String) (l : List Int) :
    (parsePorts "common" = .ok getCommonPorts ∧
      ¬ getCommonPorts.Nodup ∧ ¬ List.Sorted (· ≤ ·) getCommonPorts) ∧
    (spec ≠ "common" → parsePorts spec = .ok l →
      List.Pairwise (· < ·) l ∧ l.Nodup ∧ (∀ p ∈ l, 1 ≤ p ∧ p ≤ 65535) ∧
      ∀ parts₂, ((goSplit ',' spec).map goTrimSpace).Perm parts₂ →
        ∀ l₂, parseParts parts₂ = .ok l₂ → uniqueSortedPorts l₂ = l) := by
  refine ⟨⟨rfl, by decide, by decide⟩, ?_⟩
  intro hne h
  unfold parsePorts at h
  rw [if_neg hne] at h
  cases hpp : parseParts ((goSplit ',' spec).map goTrimSpace) with
  | error e => rw [hpp] at h; cases h
  | ok mid =>
    rw [hpp] at h
    injection h with h'
    subst h'
    refine ⟨uniqueSortedPorts_pairwise_lt mid, uniqueSortedPorts_nodup mid, ?_, ?_⟩
    · intro p hp
      exact parseParts_bounds hpp p ((uniqueSortedPorts_mem mid p).mp hp)
    · intro parts₂ hperm l₂ h₂
      obtain ⟨m₂, hm₂, hpm⟩ := parseParts_perm hperm hpp
      rw [hm₂] at h₂
      injection h₂ with h₂'
      subst h₂'
      exact uniqueSortedPorts_eq_of_perm hpm.symm

theorem c2_witness : uniqueSortedPorts [80, 443] = [80, 443] := by
  have h := (parsePorts_resolver "443,80" [80, 443]).2 (by decide) (by rfl)
  exact h.2.2.2 ["80", "443"] (by decide) [80, 443] (by rfl)

/-- Claim C4: whenever the PortSpec fails to parse, the pipeline of `main`
performs no dial and returns the parse failure; a malformed token anywhere
in a (non-`"common"`) spec makes resolution fail; and the three exemplar
malformed tokens produce errors naming the offending token, with the
scenario `"1-1000,70000"` making zero connection attempts. -/
theorem parse_error_before_network (spec target : String) (net : Int → DialOutcome) :
    ((∃ e, parsePorts spec = .error e) →
      (runScan spec target net).2 = [] ∧
        ∃ e', (runScan spec target net).1 = .error e') ∧
    (∀ part, spec ≠ "common" → part ∈ (goSplit ',' spec).map goTrimSpace →
      (∃ e, parsePortToken part = .error e) → ∃ e, parsePorts spec = .error e) ∧
    parsePorts "1-1000,70000" = .error "port out of range: 70000" ∧
    parsePorts "abc" = .error "invalid port: abc" ∧
    parsePorts "5-3" = .error "invalid port range: 5-3" ∧
    (runScan "1-1000,70000" target net).2 = [] := by
  refine ⟨?_, ?_, rfl, rfl, rfl, rfl⟩
  · rintro ⟨e, he⟩
    unfold runScan
    rw [he]
    exact ⟨rfl, "Invalid port specification: " ++ e, rfl⟩
  · rintro part hne hmem ⟨e, he⟩
    obtain ⟨e', he'⟩ := parseParts_error_of_mem hmem he
    refine ⟨e', ?_⟩
    unfold parsePorts
    rw [if_neg hne, he']

theorem c4_witness :
    (runScan "abc" "h" netAllFail).2 = [] ∧
    ∃ e', (runScan "abc" "h" netAllFail).1 = .error e' :=
  (parse_error_before_network "abc" "h" netAllFail).1 ⟨"invalid port: abc", rfl⟩

/-- Claim C5 counterexample: a PortSpec mixing the keyword `common` with
another token does not resolve successfully — `parsePorts "80,common"`
fails, because the keyword is only recognised when it is the entire
spec. -/
theorem parsePorts_common_mixed_fails :
    parsePorts "80,common" = .error "invalid port: common" := rfl

/-- Claim C5 amended: the keyword `common` is recognised only when it is
the entire PortSpec.  In every other spec whose comma-separated (trimmed)
tokens include `common`, the keyword is parsed as an ordinary port token
and resolution fails; the `common` token itself always yields the parse
error `invalid port: common`, which is the reported error when it is the
first offending token (e.g. `"80,common"` and `"common,80"`). -/
theorem parsePorts_common_only_alone (spec : String) :
    parsePorts "common" = .ok getCommonPorts ∧
    (spec ≠ "common" → "common" ∈ (goSplit ',' spec).map goTrimSpace →
      ∃ e, parsePorts spec = .error e) ∧
    parsePortToken "common" = .error "invalid port: common" ∧
    parsePorts "80,common" = .error "invalid port: common" ∧
    parsePorts "common,80" = .error "invalid port: common" := by
  refine ⟨rfl, ?_, rfl, rfl, rfl⟩
  intro hne hmem
  obtain ⟨e', he'⟩ := parseParts_error_of_mem hmem
    (rfl : parsePortToken "common" = .error "invalid port: common")
  refine ⟨e', ?_⟩
  unfold parsePorts
  rw [if_neg hne, he']

theorem c5_witness : ∃ e, parsePorts "80,common" = .error e :=
  (parsePorts_common_only_alone "80,common").2.1 (by decide) (by decide)
